import Mathlib

/-!
Verification of the TradeBricks backtest engine
(`backend/src/services/backtestService.ts`).

Modelling conventions:
* JavaScript `number` (IEEE double) is modelled as the exact rationals `ℚ`;
  all arithmetic in the engine is modelled exactly.
* `Math.sqrt` (used only by the Bollinger-band branch) has no exact rational
  counterpart, so the whole evaluation engine is parameterised by an abstract
  function `msqrt : ℚ → ℚ` standing for it.
* The JavaScript call stack is modelled by an explicit fuel parameter on the
  recursive block evaluator: a call attempted with fuel 0 "throws"
  (stack overflow), which the caller's `try`/`catch` turns into the
  kind-appropriate fallback value, exactly as the interpreter's
  `RangeError` is intercepted by the `catch` in `evaluateBlock`.
* `Map` objects are modelled as association lists with insertion-order
  iteration and overwrite-on-set, matching JavaScript `Map` semantics.
-/

namespace TradeBricks

/-- A value produced by `evaluateBlock`: TypeScript `boolean | number`. -/
inductive EvalValue where
  | b (v : Bool)
  | n (v : ℚ)
  deriving DecidableEq, Repr

/-- JavaScript truthiness of a `boolean | number` value (`if (shouldEnter)`).
A rational is truthy iff nonzero (`NaN` cannot arise in the exact model). -/
def EvalValue.truthy : EvalValue → Bool
  | .b v => v
  | .n q => q ≠ 0

/-- The result of parsing a loosely-typed block parameter with
`parseFloat` / `parseInt`: the field was absent (or JS-falsy, so the
source's `|| default` applies), parsed to `NaN`, or parsed to a value. -/
inductive Parsed (α : Type) where
  | missing
  | nan
  | num (v : α)
  deriving DecidableEq, Repr

/-- A `Parsed` value collapsed to an `Option` as the `comparison` branch does
(`if (isNaN(v)) v = undefined`). -/
def Parsed.toOpt {α : Type} : Parsed α → Option α
  | .missing => none
  | .nan => none
  | .num v => some v

/-- One OHLCV bar, `MarketData` from `marketDataService.ts`. -/
structure MarketData where
  date : String
  «open» : ℚ
  high : ℚ
  low : ℚ
  close : ℚ
  volume : ℚ
  deriving DecidableEq, Repr

/-- The caller-selected trade price field,
`usePriceType : 'open' | 'high' | 'low' | 'close'`. -/
inductive PriceField where
  | pOpen
  | pHigh
  | pLow
  | pClose
  deriving DecidableEq, Repr

/-- The selector `currentData[usePriceType]`. -/
def MarketData.field (d : MarketData) : PriceField → ℚ
  | .pOpen => d.«open»
  | .pHigh => d.high
  | .pLow => d.low
  | .pClose => d.close

/-- A strategy block.  The source stores a loosely-typed
`block.data` object; the model carries exactly the fields the engine reads:
`data.blockType.id`, `data.purpose`, `data.comparisonType`, `data.value1`,
`data.value2`, `data.period`, `data.stdDev`, `data.priceType`,
`data.outputType`. -/
structure Block where
  id : String
  blockType : Option String
  purpose : Option String
  comparisonType : Option String
  value1 : Parsed ℚ
  value2 : Parsed ℚ
  period : Parsed Int
  stdDev : Parsed ℚ
  priceType : Option String
  outputType : Option String
  deriving DecidableEq, Repr

/-- A connection between two blocks (React-Flow edge). -/
structure Connection where
  source : String
  target : String
  sourceHandle : Option String
  targetHandle : Option String
  deriving DecidableEq, Repr

/-- The per-source adjacency record pushed into the `graph` map. -/
structure ConnEdge where
  target : String
  sourceHandle : Option String
  targetHandle : Option String
  deriving DecidableEq, Repr

/-- The field `trade.action`, the TS union `'BUY' | 'SELL'`. -/
inductive TradeAction where
  | buy
  | sell
  deriving DecidableEq, Repr

/-- One ledger entry. -/
structure Trade where
  date : String
  action : TradeAction
  price : ℚ
  deriving DecidableEq, Repr

/-- The value returned by `runBacktest` (its exact field set). -/
structure BacktestResult where
  trades : List Trade
  finalCapital : ℚ
  totalReturn : ℚ
  usingSimulatedData : Bool
  deriving DecidableEq, Repr

/-- JS-falsiness of an optional string (`!blockType`): absent or empty. -/
def isFalsyStr (s : Option String) : Bool :=
  match s with
  | none => true
  | some v => v = ""

/-- The source's `s || default` idiom on an optional string field. -/
def jsStrOr (s : Option String) (d : String) : String :=
  match s with
  | none => d
  | some v => if v = "" then d else v

/-- Model of `parseInt(field || 'd', 10)` followed by the `isNaN` check:
`none` means the parse produced `NaN`. -/
def jsParseIntOr (p : Parsed Int) (d : Int) : Option Int :=
  match p with
  | .missing => some d
  | .nan => none
  | .num v => some v

/-- Model of `parseFloat(field || 'd')` followed by the `isNaN` check. -/
def jsParseFloatOr (p : Parsed ℚ) (d : ℚ) : Option ℚ :=
  match p with
  | .missing => some d
  | .nan => none
  | .num v => some v

/-- JavaScript `values.slice(start)` for a single (possibly negative)
start argument: from `max(len+start, 0)` when negative, else from
`min(start, len)`. -/
def jsSliceFrom (l : List ℚ) (start : Int) : List ℚ :=
  if start < 0 then l.drop ((l.length + start).toNat)
  else l.drop (min start.toNat l.length)

/-- The function `calculateMA` from the source: 0 on an empty list, otherwise
`values.slice(-period).reduce((a,b) => a+b, 0) / Math.min(period, values.length)`. -/
def calculateMA (values : List ℚ) (period : Int) : ℚ :=
  if values.length = 0 then 0
  else (jsSliceFrom values (-period)).sum / min (period : ℚ) (values.length : ℚ)

/-- The function `calculateStdDev` from the source (population standard deviation),
with `Math.sqrt` abstracted as `msqrt`. -/
def calculateStdDev (msqrt : ℚ → ℚ) (values : List ℚ) : ℚ :=
  if values.length = 0 then 0
  else
    let mean := values.sum / (values.length : ℚ)
    let squareDiffs := values.map (fun v => (v - mean) * (v - mean))
    let avgSquareDiff := squareDiffs.sum / (squareDiffs.length : ℚ)
    msqrt avgSquareDiff

/-- The access `marketData[i].close`; out-of-range access is modelled as 0 and the
theorems about `calculateRSI` keep indices in range. -/
def closeAt (marketData : List MarketData) (i : Nat) : ℚ :=
  ((marketData[i]?).map (fun d => d.close)).getD 0

/-- The function `calculateRSI` from the source: neutral 50 with fewer than `period`
prior bars; otherwise gains/losses are accumulated over the `period` bars
preceding `currentIndex`, the zero average loss is replaced by `0.0001`
(the `|| 0.0001` idiom), and `100 - 100/(1 + rs)` is returned. -/
def calculateRSI (marketData : List MarketData) (currentIndex : Nat) (period : Int) : ℚ :=
  if (currentIndex : Int) < period then 50
  else
    let p := period.toNat
    let change : Nat → ℚ := fun i => closeAt marketData (i + 1) - closeAt marketData i
    let gl : ℚ × ℚ :=
      (List.range p).foldl
        (fun gl j =>
          let c := change (currentIndex - p + j)
          if c > 0 then (gl.1 + c, gl.2) else (gl.1, gl.2 + |c|))
        (0, 0)
    let avgGain := gl.1 / (period : ℚ)
    let avgLossRaw := gl.2 / (period : ℚ)
    let avgLoss := if avgLossRaw = 0 then (1 / 10000 : ℚ) else avgLossRaw
    let rs := avgGain / avgLoss
    100 - 100 / (1 + rs)

/-- The per-bar memoization cache, keyed by `(blockId, barIndex)`
(the source's string key `` `${blockId}_${currentIndex}` ``). -/
abbrev Cache := List ((String × Nat) × EvalValue)

/-- Model of `cache.get(key)` (first match; keys are unique by construction). -/
def cacheGet (c : Cache) (k : String × Nat) : Option EvalValue :=
  match c with
  | [] => none
  | (k', v') :: rest => if k' = k then some v' else cacheGet rest k

/-- Model of `cache.set(key, value)`: overwrite in place, else append. -/
def cacheSet (c : Cache) (k : String × Nat) (v : EvalValue) : Cache :=
  match c with
  | [] => [(k, v)]
  | (k', v') :: rest => if k' = k then (k, v) :: rest else (k', v') :: cacheSet rest k v

/-- The `blocksById` map: insertion with overwrite (`Map.set`). -/
abbrev BlockMap := List (String × Block)

def mapSetBlock (m : BlockMap) (k : String) (b : Block) : BlockMap :=
  match m with
  | [] => [(k, b)]
  | (k', b') :: rest => if k' = k then (k, b) :: rest else (k', b') :: mapSetBlock rest k b

def buildBlocksById (blocks : List Block) : BlockMap :=
  blocks.foldl (fun m b => mapSetBlock m b.id b) []

/-- Model of `blocksById.get(id)`. -/
def blocksGet (m : BlockMap) (k : String) : Option Block :=
  match m with
  | [] => none
  | (k', b) :: rest => if k' = k then some b else blocksGet rest k

/-- The `graph` map: source id ↦ outgoing edges, in `Map` insertion order. -/
abbrev Graph := List (String × List ConnEdge)

/-- Model of `if (!graph.has(src)) graph.set(src, []); graph.get(src).push(e)`. -/
def graphAdd (g : Graph) (src : String) (e : ConnEdge) : Graph :=
  match g with
  | [] => [(src, [e])]
  | (k, es) :: rest => if k = src then (k, es ++ [e]) :: rest else (k, es) :: graphAdd rest src e

def buildGraph (connections : List Connection) : Graph :=
  connections.foldl
    (fun g c => graphAdd g c.source ⟨c.target, c.sourceHandle, c.targetHandle⟩) []

/-- Model of `graph.get(src)`. -/
def graphGet (g : Graph) (k : String) : Option (List ConnEdge) :=
  match g with
  | [] => none
  | (k', es) :: rest => if k' = k then some es else graphGet rest k

/-- The iteration `for ([sourceId, connections] of graph.entries()) for (conn of connections)`
flattened into one iteration sequence (order preserved). -/
def flatEntries (g : Graph) : List (String × ConnEdge) :=
  match g with
  | [] => []
  | (k, es) :: rest => es.map (fun e => (k, e)) ++ flatEntries rest

/-- Model of `!graph.has(block.id) || graph.get(block.id).length === 0`. -/
def isTerminalBlock (g : Graph) (id : String) : Bool :=
  match graphGet g id with
  | none => true
  | some es => es.isEmpty

/-- The per-bar evaluation context.  The source object also carries
`position` and `capital`, which `evaluateBlock` never reads; they are
omitted here. -/
structure EvalCtx where
  dataWindow : List MarketData
  currentData : MarketData
  currentIndex : Nat
  marketData : List MarketData

/-- Result of one (completed) `evaluateBlock` call: the value, the cache
after the call, and — as ghost instrumentation for the memoization claims —
the ids of the blocks whose kind-specific computation was entered
(i.e. the cache misses), in order. -/
structure EvalRes where
  value : EvalValue
  cache : Cache
  trace : List String
  deriving DecidableEq, Repr

/-- The comparison operator dispatch (`switch (comparisonType)`);
`equal_to` uses the epsilon `0.00001`. -/
def compareOp (cty : String) (a b : ℚ) : Bool :=
  if cty = "greater_than" then a > b
  else if cty = "less_than" then a < b
  else if cty = "equal_to" then |a - b| < 1 / 100000
  else if cty = "greater_than_or_equal" then a ≥ b
  else if cty = "less_than_or_equal" then a ≤ b
  else false

/-- Model of `if (value1 !== undefined && value2 !== undefined) {switch…} else {result stays false}`. -/
def applyCompare (cty : String) (v1 v2 : Option ℚ) : EvalValue :=
  match v1, v2 with
  | some a, some b => .b (compareOp cty a b)
  | _, _ => .b false

/-- The `catch` branch of `evaluateBlock`: kind-appropriate fallback. -/
def fallbackValue (bt : String) (ctx : EvalCtx) : EvalValue :=
  if bt = "moving_average" ∨ bt = "bollinger_bands" ∨ bt = "price" then
    .n ctx.currentData.close
  else if bt = "rsi" then .n 50
  else .b false

/-- A recursive-evaluation callback (the current fuel level already applied);
`none` models the stack-overflow throw of a call attempted with no fuel. -/
abbrev RecEval := Block → Cache → Option EvalRes

/-- The `entry_condition` / `exit_condition` loop: OR over connected blocks,
breaking at the first strictly-boolean `true`; blocks missing from
`blocksById` are skipped. -/
def orScan (recEval : RecEval) (bm : BlockMap) :
    List ConnEdge → Cache → Option (Bool × Cache × List String)
  | [], c => some (false, c, [])
  | e :: rest, c =>
    match blocksGet bm e.target with
    | none => orScan recEval bm rest c
    | some tb =>
      match recEval tb c with
      | none => none
      | some r =>
        match r.value with
        | .b true => some (true, r.cache, r.trace)
        | _ =>
          (orScan recEval bm rest r.cache).map
            (fun (b, c', t') => (b, c', r.trace ++ t'))

/-- The `comparison` input-resolution loop over all graph entries:
every connection targeting this block evaluates its source block, and the
result lands in `value1`/`value2` according to `targetHandle` (numbers
only; a boolean source result stores `undefined`). -/
def compScan (recEval : RecEval) (bm : BlockMap) (blockId : String) :
    List (String × ConnEdge) → Option ℚ → Option ℚ → Cache →
    Option (Option ℚ × Option ℚ × Cache × List String)
  | [], v1, v2, c => some (v1, v2, c, [])
  | (src, e) :: rest, v1, v2, c =>
    if e.target = blockId then
      match blocksGet bm src with
      | none => compScan recEval bm blockId rest v1 v2 c
      | some sb =>
        match recEval sb c with
        | none => none
        | some r =>
          let numv : Option ℚ := match r.value with | .n q => some q | .b _ => none
          let v1' := if e.targetHandle = some "input1" then numv else v1
          let v2' := if e.targetHandle = some "input2" then numv else v2
          (compScan recEval bm blockId rest v1' v2' r.cache).map
            (fun (a, b, c', t') => (a, b, c', r.trace ++ t'))
    else compScan recEval bm blockId rest v1 v2 c

/-- The body of the `try` block in `evaluateBlock`: the `switch` over the
block kind.  Returns `none` when a recursive call overflowed the stack
(to be caught by the enclosing frame), otherwise the computed value,
the cache after the sub-calls, and the sub-call traces. -/
def evalBody (msqrt : ℚ → ℚ) (ctx : EvalCtx) (bm : BlockMap) (g : Graph)
    (recEval : RecEval) (block : Block) (bt : String) (cache : Cache) :
    Option (EvalValue × Cache × List String) :=
  if bt = "entry_condition" ∨ bt = "exit_condition" then
    match graphGet g block.id with
    | none => some (.b false, cache, [])
    | some conns =>
      (orScan recEval bm conns cache).map (fun (b, c, t) => (.b b, c, t))
  else if bt = "comparison" then
    let cty := jsStrOr block.comparisonType "greater_than"
    let v1 := block.value1.toOpt
    let v2 := block.value2.toOpt
    if v1.isSome ∧ v2.isSome then some (applyCompare cty v1 v2, cache, [])
    else
      (compScan recEval bm block.id (flatEntries g) v1 v2 cache).map
        (fun (a, b, c, t) => (applyCompare cty a b, c, t))
  else if bt = "moving_average" then
    match jsParseIntOr block.period 20 with
    | none => some (.n ctx.currentData.close, cache, [])
    | some p =>
      if p ≤ 0 then some (.n ctx.currentData.close, cache, [])
      else some (.n (calculateMA (ctx.dataWindow.map (fun d => d.close)) p), cache, [])
  else if bt = "rsi" then
    match jsParseIntOr block.period 14 with
    | none => some (.n 50, cache, [])
    | some p =>
      if p ≤ 0 then some (.n 50, cache, [])
      else some (.n (calculateRSI ctx.marketData ctx.currentIndex p), cache, [])
  else if bt = "bollinger_bands" then
    match jsParseIntOr block.period 20, jsParseFloatOr block.stdDev 2 with
    | none, _ => some (.n ctx.currentData.close, cache, [])
    | some _, none => some (.n ctx.currentData.close, cache, [])
    | some p, some m =>
      if p ≤ 0 then some (.n ctx.currentData.close, cache, [])
      else
        let prices := ctx.dataWindow.map (fun d => d.close)
        let ma := calculateMA prices p
        if (prices.length : Int) ≥ p then
          let recentPrices := jsSliceFrom prices (-p)
          let sd := calculateStdDev msqrt recentPrices
          let bandType := jsStrOr block.outputType "middle"
          if bandType = "upper" then some (.n (ma + m * sd), cache, [])
          else if bandType = "lower" then some (.n (ma - m * sd), cache, [])
          else some (.n ma, cache, [])
        else some (.n ctx.currentData.close, cache, [])
  else if bt = "price" then
    let pt := jsStrOr block.priceType "close"
    if pt = "open" then some (.n ctx.currentData.«open», cache, [])
    else if pt = "high" then some (.n ctx.currentData.high, cache, [])
    else if pt = "low" then some (.n ctx.currentData.low, cache, [])
    else some (.n ctx.currentData.close, cache, [])
  else
    -- unsupported block kind: safe default
    some (.b false, cache, [])

/-- The function `evaluateBlock`, with the JS call stack as fuel: a call attempted with
fuel 0 throws (returns `none`); otherwise blocks without a truthy
`blockType` return `false` uncached, a cache hit is returned unchanged,
and a computed (or caught-fallback) value is cached before returning. -/
def evalBlock (msqrt : ℚ → ℚ) (ctx : EvalCtx) (bm : BlockMap) (g : Graph) :
    Nat → Block → Cache → Option EvalRes
  | 0, _, _ => none
  | fuel + 1, block, cache =>
    if isFalsyStr block.blockType then some ⟨.b false, cache, []⟩
    else
      let bt := jsStrOr block.blockType ""
      let key := (block.id, ctx.currentIndex)
      match cacheGet cache key with
      | some v => some ⟨v, cache, []⟩
      | none =>
        match evalBody msqrt ctx bm g (evalBlock msqrt ctx bm g fuel) block bt cache with
        | some (v, c, t) => some ⟨v, cacheSet c key v, block.id :: t⟩
        | none =>
          -- catch: stack overflow from a recursive call; no completed
          -- sub-call preceded it, so the cache is unchanged
          let fb := fallbackValue bt ctx
          some ⟨fb, cacheSet cache key fb, [block.id]⟩

/-- The entry-candidate filter (`entryBlocks = blocks.filter(...)`):
explicit `entry_condition`, or a terminal `comparison` not explicitly
tagged with purpose `exit`. -/
def entryFilter (g : Graph) (b : Block) : Bool :=
  if b.blockType = some "entry_condition" then true
  else if b.blockType = some "comparison" then
    isTerminalBlock g b.id && b.purpose ≠ some "exit"
  else false

def entryBlocksOf (blocks : List Block) (g : Graph) : List Block :=
  blocks.filter (entryFilter g)

/-- The exit-candidate filter: explicit `exit_condition`, or a terminal
`comparison` not tagged with purpose `entry` and whose id is not already
among the entry candidates. -/
def exitFilter (g : Graph) (entry : List Block) (b : Block) : Bool :=
  if b.blockType = some "exit_condition" then true
  else if b.blockType = some "comparison" then
    isTerminalBlock g b.id && b.purpose ≠ some "entry" &&
      !(entry.any (fun eb => eb.id = b.id))
  else false

def exitBlocksOf (blocks : List Block) (g : Graph) (entry : List Block) : List Block :=
  blocks.filter (exitFilter g entry)

/-- The dummy `price` block synthesized when no entry candidate exists at
all (`{id: 'default-entry', data: {blockType: {id: 'price'}}}`). -/
def dummyEntryBlock : Block :=
  { id := "default-entry", blockType := some "price", purpose := none,
    comparisonType := none, value1 := .missing, value2 := .missing,
    period := .missing, stdDev := .missing, priceType := none, outputType := none }

/-- Membership test for the first-indicator fallback list. -/
def isIndicatorOrPrice (b : Block) : Bool :=
  b.blockType = some "moving_average" || b.blockType = some "price" ||
    b.blockType = some "rsi" || b.blockType = some "bollinger_bands"

/-- The resolver's entry list after both fallbacks: the filtered entry
candidates; if empty, the first indicator/price block in declaration
order; if still none, the synthesized dummy entry block. -/
def resolveEntryBlocks (blocks : List Block) (g : Graph) : List Block :=
  let e := entryBlocksOf blocks g
  if e.isEmpty then
    match blocks.find? isIndicatorOrPrice with
    | some b => [b]
    | none => [dummyEntryBlock]
  else e

/-- The portfolio state mutated across the simulation loop:
`capital`, `position`, `buyPrice` and the trade ledger. -/
structure SimState where
  capital : ℚ
  position : ℚ
  buyPrice : ℚ
  trades : List Trade
  deriving DecidableEq, Repr

/-- The candidate scan shared by the entry and exit loops: evaluate each
candidate in order, stopping at the first truthy result; `none` is an
uncaught stack-overflow escaping `evaluateBlock`. -/
def scanCandidates (ev : Block → Cache → Option EvalRes) :
    List Block → Cache → Option (Bool × Cache)
  | [], c => some (false, c)
  | b :: rest, c =>
    match ev b c with
    | none => none
    | some r =>
      if r.value.truthy then some (true, r.cache)
      else scanCandidates ev rest r.cache

/-- One iteration of the `for (let i = 0; ...)` loop of `runBacktest`:
the cache is cleared, then the entry scan runs when flat (`position === 0`),
the exit scan (or the default 5%-stop/20%-take rule) when long
(`position > 0`). -/
def stepBar (msqrt : ℚ → ℚ) (fuel : Nat) (bm : BlockMap) (g : Graph)
    (entryBs exitBs : List Block) (marketData : List MarketData)
    (usePriceType : PriceField) (i : Nat) (currentData : MarketData)
    (st : SimState) : Option SimState :=
  let ctx : EvalCtx := ⟨marketData.take (i + 1), currentData, i, marketData⟩
  let ev := evalBlock msqrt ctx bm g fuel
  if st.position = 0 then
    match scanCandidates ev entryBs [] with
    | none => none
    | some (true, _) =>
      let tradePrice := currentData.field usePriceType
      some { capital := 0, position := st.capital / tradePrice,
             buyPrice := tradePrice,
             trades := st.trades ++ [⟨currentData.date, .buy, tradePrice⟩] }
    | some (false, _) => some st
  else if st.position > 0 then
    if exitBs.isEmpty then
      let p := currentData.field usePriceType
      if p < st.buyPrice * (95 / 100) ∨ p > st.buyPrice * (12 / 10) then
        some { capital := st.position * p, position := 0,
               buyPrice := st.buyPrice,
               trades := st.trades ++ [⟨currentData.date, .sell, p⟩] }
      else some st
    else
      match scanCandidates ev exitBs [] with
      | none => none
      | some (true, _) =>
        let tradePrice := currentData.field usePriceType
        some { capital := st.position * tradePrice, position := 0,
               buyPrice := st.buyPrice,
               trades := st.trades ++ [⟨currentData.date, .sell, tradePrice⟩] }
      | some (false, _) => some st
  else some st

/-- The bar loop: processes the remaining bars, starting at index `i`,
against the full ambient series (for the window and RSI lookups). -/
def simGo (msqrt : ℚ → ℚ) (fuel : Nat) (bm : BlockMap) (g : Graph)
    (entryBs exitBs : List Block) (marketData : List MarketData)
    (usePriceType : PriceField) :
    Nat → List MarketData → SimState → Option SimState
  | _, [], st => some st
  | i, d :: rest, st =>
    match stepBar msqrt fuel bm g entryBs exitBs marketData usePriceType i d st with
    | none => none
    | some st' => simGo msqrt fuel bm g entryBs exitBs marketData usePriceType (i + 1) rest st'

/-- A placeholder bar (unreachable: `finalLiquidate` is only applied to
nonempty series). -/
def defaultBar : MarketData := ⟨"", 0, 0, 0, 0, 0⟩

/-- The terminal step of `runBacktest`: if a position is still open after
the last bar, sell everything at the last bar's selected price field. -/
def finalLiquidate (marketData : List MarketData) (usePriceType : PriceField)
    (st : SimState) : SimState :=
  if st.position > 0 then
    let lastDay := (marketData.getLast?).getD defaultBar
    let finalPrice := lastDay.field usePriceType
    { capital := st.position * finalPrice, position := 0,
      buyPrice := st.buyPrice,
      trades := st.trades ++ [⟨lastDay.date, .sell, finalPrice⟩] }
  else st

/-- The message thrown when the fetched series is empty. -/
def noDataMsg : String := "No real market data available for the specified period"

/-- The model's name for an uncaught stack overflow escaping the top-level
`evaluateBlock` call (it would reject the `runBacktest` promise). -/
def overflowMsg : String := "stack overflow"

/-- The pure core of `runBacktest` (data fetching and console logging
stripped): empty data throws; otherwise the graph maps are built, the
entry/exit candidates are resolved, the bar loop runs, a still-open
position is force-liquidated, and the result record is assembled.
The built-but-unused `reverseGraph` of the source is omitted. -/
def runBacktest (msqrt : ℚ → ℚ) (fuel : Nat) (blocks : List Block)
    (connections : List Connection) (marketData : List MarketData)
    (initialCapital : ℚ) (usePriceType : PriceField) :
    Except String BacktestResult :=
  if marketData.isEmpty then .error noDataMsg
  else
    let bm := buildBlocksById blocks
    let g := buildGraph connections
    let entryBs := resolveEntryBlocks blocks g
    let exitBs := exitBlocksOf blocks g (entryBlocksOf blocks g)
    match simGo msqrt fuel bm g entryBs exitBs marketData usePriceType 0 marketData
        ⟨initialCapital, 0, 0, []⟩ with
    | none => .error overflowMsg
    | some st =>
      let stF := finalLiquidate marketData usePriceType st
      .ok { trades := stF.trades, finalCapital := stF.capital,
            totalReturn := (stF.capital - initialCapital) / initialCapital * 100,
            usingSimulatedData := false }

/-- The only warning string the HTTP layer can attach
(`backtestController.ts`). -/
def simulatedDataWarning : String :=
  "Simulated data was used for this backtest. Results may not reflect real market conditions."

/-- The `warnings` array attached to the HTTP response by the controller:
`result.usingSimulatedData ? [simulatedDataWarning] : []`. -/
def backtestResponseWarnings (r : BacktestResult) : List String :=
  if r.usingSimulatedData then [simulatedDataWarning] else []

/-! ### Concrete inputs used by witnesses and counterexamples -/

/-- A plain sample bar. -/
def cexBar : MarketData := ⟨"2024-01-02", 9, 11, 8, 10, 1000⟩

/-- A second sample bar. -/
def cexBar2 : MarketData := ⟨"2024-01-03", 11, 13, 10, 12, 1000⟩

/-- A connection whose endpoints name no existing block. -/
def cexDangling : Connection := ⟨"ghost-src", "ghost-tgt", none, some "input1"⟩

/-- A trivial stand-in for `Math.sqrt` in concrete runs (never reached by
them). -/
def zeroSqrt : ℚ → ℚ := fun _ => 0

/-- A comparison block whose only input connection comes from itself:
the smallest cyclic dependency. -/
def cycBlock : Block :=
  { id := "a", blockType := some "comparison", purpose := none,
    comparisonType := none, value1 := .missing, value2 := .missing,
    period := .missing, stdDev := .missing, priceType := none, outputType := none }

/-- The self-loop connection feeding `cycBlock.input1` from itself. -/
def cycConn : Connection := ⟨"a", "a", none, some "input1"⟩

/-- Evaluation context on the one-bar series, bar index 0. -/
def cycCtx : EvalCtx := ⟨[cexBar], cexBar, 0, [cexBar]⟩

def cycBM : BlockMap := buildBlocksById [cycBlock]

def cycG : Graph := buildGraph [cycConn]

/-- A plain price-reading block. -/
def cexPriceBlock : Block :=
  { id := "p", blockType := some "price", purpose := none,
    comparisonType := none, value1 := .missing, value2 := .missing,
    period := .missing, stdDev := .missing, priceType := none, outputType := none }

/-- The result of the empty-graph run used against claim C4. -/
def cexEmptyGraphResult : BacktestResult :=
  ⟨[⟨"2024-01-02", .buy, 10⟩, ⟨"2024-01-02", .sell, 10⟩], 100, 0, false⟩

/-- First evaluation of the concrete price block: value, cache, trace. -/
def cexPriceRes : EvalRes := ⟨.n 10, [(("p", 0), .n 10)], ["p"]⟩

end TradeBricks

namespace TradeBricks

/-- Number of Buy trades minus number of Sell trades in a ledger. -/
def TradesBalance (ts : List Trade) : Int :=
  (ts.countP (fun t => t.action = TradeAction.buy) : Int) -
    (ts.countP (fun t => t.action = TradeAction.sell) : Int)

/-- The simulator invariant: fully-invested-or-flat portfolio, every
ledger prefix balanced to 0 or 1, and the full balance reflecting the
open position. -/
def SimInv (st : SimState) : Prop :=
  ((0 < st.capital ∧ st.position = 0) ∨ (st.capital = 0 ∧ 0 < st.position)) ∧
  (∀ q t, st.trades = q ++ t → TradesBalance q = 0 ∨ TradesBalance q = 1) ∧
  TradesBalance st.trades = (if 0 < st.position then 1 else 0)

/-! ### Helper lemmas -/

/-- The gains/losses accumulation loop of `calculateRSI`, as a pair of
positive-part / negative-part sums. -/
lemma foldl_gains_losses (f : Nat → ℚ) (k : Nat) (a b : ℚ) :
    (List.range k).foldl
      (fun gl j => if f j > 0 then (gl.1 + f j, gl.2) else (gl.1, gl.2 + |f j|))
      (a, b) =
    (a + ∑ j ∈ Finset.range k, max (f j) 0,
     b + ∑ j ∈ Finset.range k, max (-f j) 0) := by
  induction k with
  | zero => simp
  | succ k ih =>
    rw [List.range_succ, List.foldl_append, ih, Finset.sum_range_succ,
      Finset.sum_range_succ]
    by_cases h : f k > 0
    · simp only [List.foldl_cons, List.foldl_nil, if_pos h]
      have h1 : max (f k) 0 = f k := max_eq_left h.le
      have h2 : max (-f k) 0 = 0 := max_eq_right (by linarith)
      rw [h1, h2, Prod.mk.injEq]
      exact ⟨by ring, by ring⟩
    · simp only [List.foldl_cons, List.foldl_nil, if_neg h]
      push_neg at h
      have h1 : max (f k) 0 = 0 := max_eq_right h
      have h2 : max (-f k) 0 = -f k := max_eq_left (by linarith)
      have h3 : |f k| = -f k := abs_of_nonpos h
      rw [h1, h2, h3, Prod.mk.injEq]
      exact ⟨by ring, by ring⟩

/-- The insufficient-history branch of `calculateRSI`. -/
lemma calculateRSI_of_lt (md : List MarketData) (atIndex : Nat) (p : Int)
    (h : (atIndex : Int) < p) : calculateRSI md atIndex p = 50 := by
  unfold calculateRSI
  rw [if_pos h]

/-- The main branch of `calculateRSI`, with the gains/losses loop written
as positive-part / negative-part sums. -/
lemma calculateRSI_formula (md : List MarketData) (atIndex : Nat) (p : Int)
    (h : p ≤ (atIndex : Int)) :
    calculateRSI md atIndex p =
      100 - 100 /
        (1 +
          ((∑ j ∈ Finset.range p.toNat,
              max (closeAt md (atIndex - p.toNat + j + 1) -
                    closeAt md (atIndex - p.toNat + j)) 0) / (p : ℚ)) /
          (if (∑ j ∈ Finset.range p.toNat,
                max (-(closeAt md (atIndex - p.toNat + j + 1) -
                      closeAt md (atIndex - p.toNat + j))) 0) / (p : ℚ) = 0
            then (1 / 10000 : ℚ)
            else (∑ j ∈ Finset.range p.toNat,
                max (-(closeAt md (atIndex - p.toNat + j + 1) -
                      closeAt md (atIndex - p.toNat + j))) 0) / (p : ℚ))) := by
  unfold calculateRSI
  rw [if_neg (by omega)]
  simp only [foldl_gains_losses, zero_add]

/-! ### Claims about the indicator library -/

/-- Claim C7: for every list of values and period `p ≥ 1`,
`calculateMA` returns the arithmetic mean of the last
`min(p, len(values))` values, and returns exactly 0 when the list is
empty; short history is averaged, never an error. -/
theorem c7_moving_average (values : List ℚ) (p : Int) (hp : 1 ≤ p) :
    calculateMA [] p = 0 ∧
    (values ≠ [] →
      calculateMA values p =
        (values.drop (values.length - min p.toNat values.length)).sum /
          ((min p.toNat values.length : Nat) : ℚ)) := by
  constructor
  · simp [calculateMA]
  · intro hne
    have hlen : values.length ≠ 0 := by simpa using hne
    unfold calculateMA jsSliceFrom
    rw [if_neg hlen, if_pos (by omega : (-p : Int) < 0)]
    have h1 : ((values.length : Int) + -p).toNat =
        values.length - min p.toNat values.length := by omega
    have h3 : min p ((values.length : Int)) =
        ((min p.toNat values.length : Nat) : Int) := by omega
    have h2 : min (p : ℚ) ((values.length : ℚ)) =
        ((min p.toNat values.length : Nat) : ℚ) := by
      exact_mod_cast congrArg (fun z : Int => (z : ℚ)) h3
    rw [h1, h2]

/-- Witness for C7 at concrete inputs. -/
theorem c7_moving_average_witness :
    calculateMA [] 20 = 0 ∧ calculateMA [(1 : ℚ), 2, 3] 2 = 5 / 2 := by
  refine ⟨(c7_moving_average [] 20 (by norm_num)).1, ?_⟩
  have h := (c7_moving_average [(1 : ℚ), 2, 3] 2 (by norm_num)).2 (by simp)
  rw [h, (by rfl : Int.toNat 2 = 2)]
  norm_num [List.sum_cons, List.sum_nil]

/-- Claim C8: `calculateRSI` returns exactly 50 whenever `atIndex < p`,
and otherwise `100 - 100/(1 + rs)` where `rs` is the average gain over
the `p` bars preceding `atIndex` divided by the average loss over those
bars, the zero average loss being replaced by the floor `0.0001`. -/
theorem c8_rsi (md : List MarketData) (atIndex : Nat) (p : Int) (_hp : 1 ≤ p) :
    ((atIndex : Int) < p → calculateRSI md atIndex p = 50) ∧
    (p ≤ (atIndex : Int) →
      calculateRSI md atIndex p =
        100 - 100 /
          (1 +
            ((∑ j ∈ Finset.range p.toNat,
                max (closeAt md (atIndex - p.toNat + j + 1) -
                      closeAt md (atIndex - p.toNat + j)) 0) / (p : ℚ)) /
            (if (∑ j ∈ Finset.range p.toNat,
                  max (-(closeAt md (atIndex - p.toNat + j + 1) -
                        closeAt md (atIndex - p.toNat + j))) 0) / (p : ℚ) = 0
              then (1 / 10000 : ℚ)
              else (∑ j ∈ Finset.range p.toNat,
                  max (-(closeAt md (atIndex - p.toNat + j + 1) -
                        closeAt md (atIndex - p.toNat + j))) 0) / (p : ℚ)))) := by
  exact ⟨calculateRSI_of_lt md atIndex p, calculateRSI_formula md atIndex p⟩

/-- Witness for C8: both branches at concrete inputs. -/
theorem c8_rsi_witness :
    calculateRSI [cexBar, cexBar2] 0 14 = 50 ∧
    calculateRSI [cexBar, cexBar2] 1 1 = 100 - 100 / (1 + (2 / (1 / 10000))) := by
  constructor
  · exact (c8_rsi [cexBar, cexBar2] 0 14 (by norm_num)).1 (by norm_num)
  · have h := (c8_rsi [cexBar, cexBar2] 1 1 (by norm_num)).2 (by norm_num)
    rw [h]
    norm_num [closeAt, cexBar, cexBar2]

/-- Claim C10 (implicit): with `p ≥ 1` and `atIndex` in range, the RSI
value lies in `[0, 100)`: the loss denominator is floored at `0.0001`, the
accumulated gains and losses are non-negative, and the 50 fallback is also
inside the interval, so every value the RSI block feeds downstream lies in
`[0, 100)`. -/
theorem c10_rsi_range (md : List MarketData) (atIndex : Nat) (p : Int)
    (hp : 1 ≤ p) (_hidx : atIndex < md.length) :
    0 ≤ calculateRSI md atIndex p ∧ calculateRSI md atIndex p < 100 := by
  by_cases h : (atIndex : Int) < p
  · rw [calculateRSI_of_lt md atIndex p h]
    norm_num
  · push_neg at h
    rw [calculateRSI_formula md atIndex p h]
    set G : ℚ := ∑ j ∈ Finset.range p.toNat,
      max (closeAt md (atIndex - p.toNat + j + 1) - closeAt md (atIndex - p.toNat + j)) 0
      with hG
    set L : ℚ := ∑ j ∈ Finset.range p.toNat,
      max (-(closeAt md (atIndex - p.toNat + j + 1) - closeAt md (atIndex - p.toNat + j))) 0
      with hL
    have hGnn : 0 ≤ G := Finset.sum_nonneg fun j _ => le_max_right _ _
    have hLnn : 0 ≤ L := Finset.sum_nonneg fun j _ => le_max_right _ _
    have hpq : (0 : ℚ) < (p : ℚ) := by exact_mod_cast (by omega : (0 : Int) < p)
    have hLoss : 0 < (if L / (p : ℚ) = 0 then (1 / 10000 : ℚ) else L / (p : ℚ)) := by
      by_cases hz : L / (p : ℚ) = 0
      · rw [if_pos hz]; norm_num
      · rw [if_neg hz]
        exact lt_of_le_of_ne (div_nonneg hLnn hpq.le) (Ne.symm hz)
    have hrs : 0 ≤ (G / (p : ℚ)) / (if L / (p : ℚ) = 0 then (1 / 10000 : ℚ) else L / (p : ℚ)) :=
      div_nonneg (div_nonneg hGnn hpq.le) hLoss.le
    set rs : ℚ := (G / (p : ℚ)) / (if L / (p : ℚ) = 0 then (1 / 10000 : ℚ) else L / (p : ℚ))
    have h1 : (0 : ℚ) < 1 + rs := by linarith
    constructor
    · have : 100 / (1 + rs) ≤ 100 := div_le_self (by norm_num) (by linarith)
      linarith
    · have : 0 < 100 / (1 + rs) := div_pos (by norm_num) h1
      linarith

/-- Witness for C10 at a concrete input. -/
theorem c10_rsi_range_witness :
    0 ≤ calculateRSI [cexBar, cexBar2] 1 1 ∧ calculateRSI [cexBar, cexBar2] 1 1 < 100 :=
  c10_rsi_range [cexBar, cexBar2] 1 1 (by norm_num) (by norm_num)

/-! ### The graph resolver (claim C9) -/

lemma entryFilter_eq_true_iff (g : Graph) (b : Block) :
    entryFilter g b = true ↔
      b.blockType = some "entry_condition" ∨
      (b.blockType = some "comparison" ∧ isTerminalBlock g b.id = true ∧
        b.purpose ≠ some "exit") := by
  unfold entryFilter
  split_ifs with h1 h2 <;> simp_all

lemma exitFilter_eq_true_iff (g : Graph) (entry : List Block) (b : Block) :
    exitFilter g entry b = true ↔
      b.blockType = some "exit_condition" ∨
      (b.blockType = some "comparison" ∧ isTerminalBlock g b.id = true ∧
        b.purpose ≠ some "entry" ∧ ∀ eb ∈ entry, ¬ eb.id = b.id) := by
  unfold exitFilter
  split_ifs with h1 h2 <;> simp_all [and_assoc]

/-- Claim C9: no block is both an entry candidate and an exit candidate;
a terminal Comparison with neither purpose tag is an entry candidate only;
a terminal Comparison is an exit candidate exactly when it is not already
an entry candidate (by id) and is not tagged as serving an entry purpose. -/
theorem c9_resolver_exclusivity (blocks : List Block) (g : Graph) :
    (∀ b, b ∈ resolveEntryBlocks blocks g →
      b ∈ exitBlocksOf blocks g (entryBlocksOf blocks g) → False) ∧
    (∀ b ∈ blocks, b.blockType = some "comparison" →
      isTerminalBlock g b.id = true → b.purpose = none →
      b ∈ resolveEntryBlocks blocks g ∧
        b ∉ exitBlocksOf blocks g (entryBlocksOf blocks g)) ∧
    (∀ b, b.blockType = some "comparison" →
      (b ∈ exitBlocksOf blocks g (entryBlocksOf blocks g) ↔
        b ∈ blocks ∧ isTerminalBlock g b.id = true ∧ b.purpose ≠ some "entry" ∧
          ∀ eb ∈ entryBlocksOf blocks g, eb.id ≠ b.id)) := by
  have hexit : ∀ b, b ∈ exitBlocksOf blocks g (entryBlocksOf blocks g) ↔
      b ∈ blocks ∧ exitFilter g (entryBlocksOf blocks g) b = true := by
    intro b
    simp [exitBlocksOf, List.mem_filter]
  have hentry : ∀ b, b ∈ entryBlocksOf blocks g ↔
      b ∈ blocks ∧ entryFilter g b = true := by
    intro b
    simp [entryBlocksOf, List.mem_filter]
  refine ⟨?_, ?_, ?_⟩
  · intro b hbe hbx
    rw [hexit] at hbx
    rw [exitFilter_eq_true_iff] at hbx
    unfold resolveEntryBlocks at hbe
    by_cases he : (entryBlocksOf blocks g).isEmpty
    · rw [if_pos he] at hbe
      -- fallback entries are indicator/price blocks, never exit candidates
      match hf : blocks.find? isIndicatorOrPrice with
      | some fb =>
        rw [hf] at hbe
        have hfb : isIndicatorOrPrice fb = true := List.find?_some hf
        have hb : b = fb := by simpa using hbe
        subst hb
        unfold isIndicatorOrPrice at hfb
        rcases hbx.2 with hbt | hbt <;> simp_all
      | none =>
        rw [hf] at hbe
        have hb : b = dummyEntryBlock := by simpa using hbe
        subst hb
        rcases hbx.2 with hbt | hbt <;> simp [dummyEntryBlock] at hbt
    · rw [if_neg he] at hbe
      have hbe' := (hentry b).mp hbe
      rw [entryFilter_eq_true_iff] at hbe'
      rcases hbe'.2 with h1 | ⟨h1, _, _⟩ <;>
        rcases hbx.2 with h2 | ⟨h2, _, _, hno⟩
      · rw [h1] at h2; simp at h2
      · rw [h1] at h2; simp at h2
      · rw [h1] at h2; simp at h2
      · exact hno b hbe rfl
  · intro b hb hbt hterm hpurp
    have hef : entryFilter g b = true := by
      rw [entryFilter_eq_true_iff]
      right
      exact ⟨hbt, hterm, by simp [hpurp]⟩
    have hbe : b ∈ entryBlocksOf blocks g := (hentry b).mpr ⟨hb, hef⟩
    have hne : ¬ (entryBlocksOf blocks g).isEmpty = true := by
      intro hh
      rw [List.isEmpty_iff] at hh
      rw [hh] at hbe
      simp at hbe
    constructor
    · unfold resolveEntryBlocks
      rw [if_neg hne]
      exact hbe
    · intro hbx
      have := ((hexit b).mp hbx).2
      rw [exitFilter_eq_true_iff] at this
      rcases this with h1 | h1
      · rw [hbt] at h1; simp at h1
      · exact h1.2.2.2 b hbe rfl
  · intro b hbt
    constructor
    · intro hbx
      have h := (hexit b).mp hbx
      rcases (exitFilter_eq_true_iff _ _ _).mp h.2 with h1 | h1
      · rw [hbt] at h1; simp at h1
      · exact ⟨h.1, h1.2.1, h1.2.2.1, fun eb heb => h1.2.2.2 eb heb⟩
    · intro ⟨hb, hterm, hpurp, hids⟩
      refine (hexit b).mpr ⟨hb, ?_⟩
      rw [exitFilter_eq_true_iff]
      right
      exact ⟨hbt, hterm, hpurp, fun eb heb => hids eb heb⟩

/-- Witness for C9: a concrete two-block graph (one terminal untagged
comparison, one exit condition). -/
theorem c9_resolver_exclusivity_witness :
    cycBlock ∈ resolveEntryBlocks [cycBlock] [] ∧
      cycBlock ∉ exitBlocksOf [cycBlock] [] (entryBlocksOf [cycBlock] []) :=
  (c9_resolver_exclusivity [cycBlock] []).2.1 cycBlock (by simp)
    (by simp [cycBlock]) (by simp [isTerminalBlock, graphGet]) (by simp [cycBlock])

/-! ### Structural validation and warnings (claims C3, C4) -/

/-- Claim C3 counterexample: a graph whose sole connection references the
non-existent block ids `ghost-src`/`ghost-tgt` (the block list is empty)
does NOT produce a fatal error: the backtest runs the bar loop and
produces two trades (the synthesized default entry buys, the terminal
liquidation sells). -/
theorem c3_counterexample :
    runBacktest zeroSqrt 5 [] [cexDangling] [cexBar] 100 .pClose =
      .ok ⟨[⟨"2024-01-02", .buy, 10⟩, ⟨"2024-01-02", .sell, 10⟩], 100, 0, false⟩ := by
  simp [runBacktest, simGo, stepBar, scanCandidates, evalBlock, evalBody,
    resolveEntryBlocks, entryBlocksOf, exitBlocksOf, entryFilter, exitFilter,
    buildGraph, buildBlocksById, graphAdd, mapSetBlock, blocksGet, graphGet,
    cacheGet, cacheSet, dummyEntryBlock, isFalsyStr, jsStrOr, EvalValue.truthy,
    finalLiquidate, cexBar, cexDangling, MarketData.field, noDataMsg, overflowMsg]

/-- Claim C3 (amended): the engine performs no structural validation of
connection endpoints — dangling connections are silently ignored and the
only errors `runBacktest` can report are the empty-series error (and, in
the stack model, an uncaught overflow); it never reports a
bad-connection error. -/
theorem c3_no_structural_validation (msqrt : ℚ → ℚ) (fuel : Nat)
    (blocks : List Block) (connections : List Connection)
    (marketData : List MarketData) (initialCapital : ℚ)
    (usePriceType : PriceField) (e : String) :
    runBacktest msqrt fuel blocks connections marketData initialCapital usePriceType =
      .error e →
    e = noDataMsg ∨ e = overflowMsg := by
  intro he
  unfold runBacktest at he
  split at he
  · left
    injection he with h'
    exact h'.symm
  · dsimp only at he
    split at he
    · right
      injection he with h'
      exact h'.symm
    · simp at he

/-- Witness for the amended C3: the one fatal error actually produced. -/
theorem c3_no_structural_validation_witness :
    runBacktest zeroSqrt 5 [] [] [] 100 .pClose = .error noDataMsg ∧
      (noDataMsg = noDataMsg ∨ noDataMsg = overflowMsg) :=
  ⟨by simp [runBacktest],
   c3_no_structural_validation zeroSqrt 5 [] [] [] 100 .pClose noDataMsg
     (by simp [runBacktest])⟩

/-- Claim C4 counterexample: for a strategy graph with zero blocks, the
result returned to the caller carries NO warning string at all — the
response-level warnings list (which can only ever hold the
simulated-data message) is empty, so no warning mentioning missing
blocks reaches the caller. -/
theorem c4_counterexample :
    runBacktest zeroSqrt 5 [] [] [cexBar] 100 .pClose = .ok cexEmptyGraphResult ∧
      backtestResponseWarnings cexEmptyGraphResult = [] := by
  constructor
  · simp [runBacktest, simGo, stepBar, scanCandidates, evalBlock, evalBody,
      resolveEntryBlocks, entryBlocksOf, exitBlocksOf, entryFilter, exitFilter,
      buildGraph, buildBlocksById, graphAdd, mapSetBlock, blocksGet, graphGet,
      cacheGet, cacheSet, dummyEntryBlock, isFalsyStr, jsStrOr, EvalValue.truthy,
      finalLiquidate, cexBar, MarketData.field, noDataMsg, overflowMsg,
      cexEmptyGraphResult]
  · simp [backtestResponseWarnings, cexEmptyGraphResult]

/-- Claim C4 (amended): `BacktestResult` itself carries no warnings; the
HTTP layer's warnings list is non-empty only when simulated data was
used, and `runBacktest` always reports `usingSimulatedData = false`, so
every successful backtest reaches the caller with an empty warnings
list (missing-block conditions are logged to the console only). -/
theorem c4_no_warnings_surfaced (msqrt : ℚ → ℚ) (fuel : Nat)
    (blocks : List Block) (connections : List Connection)
    (marketData : List MarketData) (initialCapital : ℚ)
    (usePriceType : PriceField) (r : BacktestResult) :
    runBacktest msqrt fuel blocks connections marketData initialCapital usePriceType =
      .ok r →
    r.usingSimulatedData = false ∧ backtestResponseWarnings r = [] := by
  intro he
  unfold runBacktest at he
  split at he
  · simp at he
  · dsimp only at he
    split at he
    · simp at he
    · injection he with h'
      rw [← h']
      simp [backtestResponseWarnings]

/-! ### Cycle behaviour and memoization (claims C5, C6) -/

/-- One unfolding step of the self-loop evaluation: with `m` frames left,
the comparison block `a` re-enters itself, appends its own id to the
trace, and (its sole input being non-numeric) evaluates to `false`. -/
lemma cyc_step (msqrt : ℚ → ℚ) (m : Nat) (r : EvalRes)
    (h : evalBlock msqrt cycCtx cycBM cycG m cycBlock [] = some r)
    (hv : r.value = .b false) :
    evalBlock msqrt cycCtx cycBM cycG (m + 1) cycBlock [] =
      some ⟨.b false, cacheSet r.cache ("a", 0) (.b false), "a" :: r.trace⟩ := by
  simp only [evalBlock]
  simp [evalBody, compScan, cacheGet, applyCompare, compareOp,
    (show isFalsyStr cycBlock.blockType = false from rfl),
    (show jsStrOr cycBlock.blockType "" = "comparison" from rfl),
    (show jsStrOr cycBlock.comparisonType "greater_than" = "greater_than" from rfl),
    (show cycBlock.id = "a" from rfl),
    (show cycBlock.value1.toOpt = (none : Option ℚ) from rfl),
    (show cycBlock.value2.toOpt = (none : Option ℚ) from rfl),
    (show flatEntries cycG = [("a", ⟨"a", none, some "input1"⟩)] from rfl),
    (show cycConn.target = "a" from rfl),
    (show cycConn.source = "a" from rfl),
    (show cycConn.targetHandle = some "input1" from rfl),
    (show cycConn.sourceHandle = (none : Option String) from rfl),
    (show blocksGet cycBM "a" = some cycBlock from rfl),
    (show cycCtx.currentIndex = 0 from rfl),
    h, hv]

/-- Claim C5 (amended): `evaluateBlock` does no recursion-stack tracking.
On the self-loop graph, a call with any positive stack budget `n + 1`
re-enters block `a` exactly `n + 1` times (the memo cache is written only
after recursion returns), then the deepest frame's overflow is caught and
the comparison fallback `false` is substituted — so every bar still
yields a value rather than a crash, but the number of re-entries grows
with the stack budget instead of being bounded by the node count. -/
theorem c5_cycle_unbounded_reentry (msqrt : ℚ → ℚ) (n : Nat) :
    evalBlock msqrt cycCtx cycBM cycG (n + 1) cycBlock [] =
      some ⟨.b false, [(("a", 0), .b false)], List.replicate (n + 1) "a"⟩ := by
  induction n with
  | zero =>
    simp [evalBlock, cycBlock, cycConn, cycBM, cycG, buildBlocksById, buildGraph,
      graphAdd, mapSetBlock, isFalsyStr, jsStrOr, cacheGet, cacheSet, evalBody,
      compScan, flatEntries, blocksGet, Parsed.toOpt, applyCompare, compareOp,
      fallbackValue, cycCtx]
  | succ n ih =>
    have step := cyc_step msqrt (n + 1)
      ⟨.b false, [(("a", 0), .b false)], List.replicate (n + 1) "a"⟩ ih rfl
    rw [step]
    simp [cacheSet, List.replicate_succ]

/-- Claim C5 counterexample: a single evaluation request for the cyclic
block `a` (stack budget 3) performs the computation of `a` three times —
a node already on the current recursion stack IS revisited, contradicting
the claimed cycle detection. -/
theorem c5_counterexample :
    evalBlock zeroSqrt cycCtx cycBM cycG 3 cycBlock [] =
      some ⟨.b false, [(("a", 0), .b false)], ["a", "a", "a"]⟩ ∧
      (["a", "a", "a"] : List String).count "a" = 3 := by
  constructor
  · simp [evalBlock, cycBlock, cycConn, cycBM, cycG, buildBlocksById, buildGraph,
      graphAdd, mapSetBlock, isFalsyStr, jsStrOr, cacheGet, cacheSet, evalBody,
      compScan, flatEntries, blocksGet, Parsed.toOpt, applyCompare, compareOp,
      fallbackValue, cycCtx]
  · decide

/-- Looking up the key just written. -/
lemma cacheGet_cacheSet_self (c : Cache) (k : String × Nat) (v : EvalValue) :
    cacheGet (cacheSet c k v) k = some v := by
  induction c with
  | nil => simp [cacheSet, cacheGet]
  | cons kv rest ih =>
    obtain ⟨k', v'⟩ := kv
    simp only [cacheSet]
    split_ifs with h
    · simp [cacheGet]
    · simp [cacheGet, h, ih]

/-- Every completed `evaluateBlock` call on a block with a truthy
`blockType` leaves its own value in the cache under its key. -/
lemma evalBlock_caches (msqrt : ℚ → ℚ) (ctx : EvalCtx) (bm : BlockMap) (g : Graph)
    (fuel : Nat) (b : Block) (cache : Cache) (r : EvalRes)
    (hbt : isFalsyStr b.blockType = false)
    (h : evalBlock msqrt ctx bm g fuel b cache = some r) :
    cacheGet r.cache (b.id, ctx.currentIndex) = some r.value := by
  cases fuel with
  | zero => simp [evalBlock] at h
  | succ m =>
    simp only [evalBlock, hbt, Bool.false_eq_true, if_false] at h
    split at h
    · rename_i v heq
      injection h with h'
      rw [← h']
      exact heq
    · split at h
      · rename_i v c t heq
        injection h with h'
        rw [← h']
        exact cacheGet_cacheSet_self c (b.id, ctx.currentIndex) v
      · injection h with h'
        rw [← h']
        exact cacheGet_cacheSet_self cache (b.id, ctx.currentIndex) _

/-- Claim C6 (amended): once a block's evaluation has completed within a
bar, its value is cached, and any later request for the same block id in
that bar performs no further kind-computation (empty trace) and returns a
value equal to the first.  (Computation counts can exceed one per id only
when a cyclic dependency re-enters a block before its first evaluation
completes, as the C6 counterexample shows.) -/
theorem c6_memoization (msqrt : ℚ → ℚ) (ctx : EvalCtx) (bm : BlockMap) (g : Graph)
    (fuel fuel' : Nat) (b : Block) (cache : Cache) (r : EvalRes)
    (hbt : isFalsyStr b.blockType = false)
    (h : evalBlock msqrt ctx bm g fuel b cache = some r) :
    evalBlock msqrt ctx bm g (fuel' + 1) b r.cache = some ⟨r.value, r.cache, []⟩ := by
  have hc := evalBlock_caches msqrt ctx bm g fuel b cache r hbt h
  simp only [evalBlock]
  simp [hbt, hc]

/-- Witness for the amended C6: re-evaluating the price block against the
cache produced by its first evaluation recomputes nothing and returns the
same value. -/
theorem c6_memoization_witness :
    evalBlock zeroSqrt cycCtx (buildBlocksById [cexPriceBlock]) [] 3 cexPriceBlock
        cexPriceRes.cache = some ⟨cexPriceRes.value, cexPriceRes.cache, []⟩ :=
  c6_memoization zeroSqrt cycCtx (buildBlocksById [cexPriceBlock]) [] 1 2
    cexPriceBlock [] cexPriceRes
    (by simp [cexPriceBlock, isFalsyStr])
    (by simp [evalBlock, evalBody, cexPriceBlock, buildBlocksById, mapSetBlock,
      cacheGet, cacheSet, isFalsyStr, jsStrOr, cycCtx, cexBar, cexPriceRes])

/-- Claim C6 counterexample: within ONE bar, a single evaluation request
for the cyclic block `a` (stack budget 4) performs its kind-computation
four times — the number of computations exceeds the number of distinct
`(blockId, barIndex)` pairs requested. -/
theorem c6_counterexample :
    evalBlock zeroSqrt cycCtx cycBM cycG 4 cycBlock [] =
      some ⟨.b false, [(("a", 0), .b false)], ["a", "a", "a", "a"]⟩ ∧
      2 ≤ (["a", "a", "a", "a"] : List String).count "a" := by
  constructor
  · simp [evalBlock, cycBlock, cycConn, cycBM, cycG, buildBlocksById, buildGraph,
      graphAdd, mapSetBlock, isFalsyStr, jsStrOr, cacheGet, cacheSet, evalBody,
      compScan, flatEntries, blocksGet, Parsed.toOpt, applyCompare, compareOp,
      fallbackValue, cycCtx]
  · decide

/-- Witness for the amended C4 at the concrete empty-graph run. -/
theorem c4_no_warnings_surfaced_witness :
    cexEmptyGraphResult.usingSimulatedData = false ∧
      backtestResponseWarnings cexEmptyGraphResult = [] :=
  c4_no_warnings_surfaced zeroSqrt 5 [] [] [cexBar] 100 .pClose cexEmptyGraphResult
    (by simp [runBacktest, simGo, stepBar, scanCandidates, evalBlock, evalBody,
      resolveEntryBlocks, entryBlocksOf, exitBlocksOf, entryFilter, exitFilter,
      buildGraph, buildBlocksById, graphAdd, mapSetBlock, blocksGet, graphGet,
      cacheGet, cacheSet, dummyEntryBlock, isFalsyStr, jsStrOr, EvalValue.truthy,
      finalLiquidate, cexBar, MarketData.field, noDataMsg, overflowMsg,
      cexEmptyGraphResult])

/-! ### Simulator state-machine invariants (claims C1, C2) -/

lemma tradesBalance_append (q t : List Trade) :
    TradesBalance (q ++ t) = TradesBalance q + TradesBalance t := by
  unfold TradesBalance
  rw [List.countP_append, List.countP_append]
  push_cast
  ring

/-- Splitting a prefix decomposition of `l ++ [x]`. -/
lemma prefix_of_concat {α : Type} (l : List α) (x : α) (q t : List α)
    (h : l ++ [x] = q ++ t) :
    (q = l ++ [x] ∧ t = []) ∨ ∃ t', t = t' ++ [x] ∧ l = q ++ t' := by
  rcases t.eq_nil_or_concat with rfl | ⟨t', y, rfl⟩
  · left
    exact ⟨by simpa using h.symm, rfl⟩
  · right
    have h2 : l ++ [x] = (q ++ t') ++ [y] := by simpa [List.append_assoc] using h
    obtain ⟨hl, hx⟩ := List.append_inj' h2 (by simp)
    have hxy : x = y := by simpa using hx
    exact ⟨t', by rw [hxy]; simp, hl⟩

/-- Everything one bar iteration can do to the state: nothing, one buy,
or one sell. -/
lemma stepBar_cases (msqrt : ℚ → ℚ) (fuel : Nat) (bm : BlockMap) (g : Graph)
    (entryBs exitBs : List Block) (md : List MarketData) (upt : PriceField)
    (i : Nat) (d : MarketData) (st st' : SimState)
    (h : stepBar msqrt fuel bm g entryBs exitBs md upt i d st = some st') :
    st' = st ∨
    (st.position = 0 ∧
      st' = ⟨0, st.capital / d.field upt, d.field upt,
        st.trades ++ [⟨d.date, .buy, d.field upt⟩]⟩) ∨
    (0 < st.position ∧
      st' = ⟨st.position * d.field upt, 0, st.buyPrice,
        st.trades ++ [⟨d.date, .sell, d.field upt⟩]⟩) := by
  unfold stepBar at h
  dsimp only at h
  split at h
  · rename_i h0
    split at h
    · exact absurd h (by simp)
    · injection h with h'
      exact Or.inr (Or.inl ⟨h0, h'.symm⟩)
    · injection h with h'
      exact Or.inl h'.symm
  · split at h
    · rename_i hpos
      split at h
      · split at h
        · injection h with h'
          exact Or.inr (Or.inr ⟨hpos, h'.symm⟩)
        · injection h with h'
          exact Or.inl h'.symm
      · split at h
        · exact absurd h (by simp)
        · injection h with h'
          exact Or.inr (Or.inr ⟨hpos, h'.symm⟩)
        · injection h with h'
          exact Or.inl h'.symm
    · injection h with h'
      exact Or.inl h'.symm

/-- One bar preserves the simulator invariant (selected price positive). -/
lemma stepBar_inv (msqrt : ℚ → ℚ) (fuel : Nat) (bm : BlockMap) (g : Graph)
    (entryBs exitBs : List Block) (md : List MarketData) (upt : PriceField)
    (i : Nat) (d : MarketData) (st st' : SimState)
    (hpd : 0 < d.field upt) (hInv : SimInv st)
    (h : stepBar msqrt fuel bm g entryBs exitBs md upt i d st = some st') :
    SimInv st' := by
  obtain ⟨hxor, hpre, hbal⟩ := hInv
  rcases stepBar_cases msqrt fuel bm g entryBs exitBs md upt i d st st' h with
    rfl | ⟨h0, rfl⟩ | ⟨h0, rfl⟩
  · exact ⟨hxor, hpre, hbal⟩
  · -- buy while flat
    have hcap : 0 < st.capital := by
      rcases hxor with ⟨hc, _⟩ | ⟨_, hp⟩
      · exact hc
      · exact absurd h0 (by rw [h0] at hp; exact absurd hp (lt_irrefl 0))
    have hbal0 : TradesBalance st.trades = 0 := by
      rw [hbal, if_neg (by rw [h0]; exact lt_irrefl 0)]
    have hb1 : TradesBalance [⟨d.date, TradeAction.buy, d.field upt⟩] = 1 := by
      simp [TradesBalance]
    refine ⟨Or.inr ⟨rfl, div_pos hcap hpd⟩, ?_, ?_⟩
    · intro q t hqt
      rcases prefix_of_concat st.trades _ q t hqt with ⟨rfl, rfl⟩ | ⟨t', _, hl⟩
      · right
        rw [tradesBalance_append, hbal0, hb1]
        norm_num
      · exact hpre q t' hl
    · rw [tradesBalance_append, hbal0, hb1]
      rw [if_pos (div_pos hcap hpd)]
      norm_num
  · -- sell while long
    have hbal1 : TradesBalance st.trades = 1 := by
      rw [hbal, if_pos h0]
    have hs1 : TradesBalance [⟨d.date, TradeAction.sell, d.field upt⟩] = -1 := by
      simp [TradesBalance]
    refine ⟨Or.inl ⟨mul_pos h0 hpd, rfl⟩, ?_, ?_⟩
    · intro q t hqt
      rcases prefix_of_concat st.trades _ q t hqt with ⟨rfl, rfl⟩ | ⟨t', _, hl⟩
      · left
        rw [tradesBalance_append, hbal1, hs1]
        ring
      · exact hpre q t' hl
    · rw [tradesBalance_append, hbal1, hs1, if_neg (lt_irrefl 0)]
      ring

/-- The bar loop preserves the simulator invariant. -/
lemma simGo_inv (msqrt : ℚ → ℚ) (fuel : Nat) (bm : BlockMap) (g : Graph)
    (entryBs exitBs : List Block) (md : List MarketData) (upt : PriceField) :
    ∀ (rem : List MarketData) (i : Nat) (st st' : SimState),
      (∀ d ∈ rem, 0 < d.field upt) → SimInv st →
      simGo msqrt fuel bm g entryBs exitBs md upt i rem st = some st' →
      SimInv st' := by
  intro rem
  induction rem with
  | nil =>
    intro i st st' _ hInv h
    injection h with h'
    exact h' ▸ hInv
  | cons d rest ih =>
    intro i st st' hp hInv h
    unfold simGo at h
    split at h
    · exact absurd h (by simp)
    · rename_i st1 hstep
      exact ih (i + 1) st1 st' (fun x hx => hp x (List.mem_cons_of_mem d hx))
        (stepBar_inv msqrt fuel bm g entryBs exitBs md upt i d st st1
          (hp d (List.mem_cons_self d rest)) hInv hstep) h

/-- The invariant holds at the start of the run. -/
lemma simInv_start (initialCapital : ℚ) (hcap : 0 < initialCapital) :
    SimInv ⟨initialCapital, 0, 0, []⟩ := by
  refine ⟨Or.inl ⟨hcap, rfl⟩, ?_, ?_⟩
  · intro q t hqt
    left
    have hq : q = [] := (List.append_eq_nil.mp hqt.symm).1
    rw [hq]
    simp [TradesBalance]
  · simp [TradesBalance]

/-- Claim C1: with positive initial capital and positive selected prices,
after the last bar is processed the held position is exactly 0; if a
position was still open after the last bar's per-bar transition, the
final result's ledger is the loop's ledger with one Sell appended, dated
on the last bar and priced at the last bar's selected price field, and
`runBacktest` returns exactly that liquidated result. -/
theorem c1_terminal_flatness (msqrt : ℚ → ℚ) (fuel : Nat) (blocks : List Block)
    (connections : List Connection) (marketData : List MarketData)
    (initialCapital : ℚ) (usePriceType : PriceField)
    (hne : marketData ≠ [])
    (hcap : 0 < initialCapital)
    (hpos : ∀ d ∈ marketData, 0 < d.field usePriceType) :
    ∀ st, simGo msqrt fuel (buildBlocksById blocks) (buildGraph connections)
        (resolveEntryBlocks blocks (buildGraph connections))
        (exitBlocksOf blocks (buildGraph connections)
          (entryBlocksOf blocks (buildGraph connections)))
        marketData usePriceType 0 marketData ⟨initialCapital, 0, 0, []⟩ = some st →
      (finalLiquidate marketData usePriceType st).position = 0 ∧
      (0 < st.position →
        ∃ lb, marketData.getLast? = some lb ∧
          (finalLiquidate marketData usePriceType st).trades =
            st.trades ++ [⟨lb.date, .sell, lb.field usePriceType⟩]) ∧
      runBacktest msqrt fuel blocks connections marketData initialCapital usePriceType =
        .ok ⟨(finalLiquidate marketData usePriceType st).trades,
          (finalLiquidate marketData usePriceType st).capital,
          ((finalLiquidate marketData usePriceType st).capital - initialCapital) /
            initialCapital * 100, false⟩ := by
  intro st hsim
  have hInv := simGo_inv msqrt fuel (buildBlocksById blocks) (buildGraph connections)
    (resolveEntryBlocks blocks (buildGraph connections))
    (exitBlocksOf blocks (buildGraph connections)
      (entryBlocksOf blocks (buildGraph connections)))
    marketData usePriceType marketData 0 ⟨initialCapital, 0, 0, []⟩ st hpos
    (simInv_start initialCapital hcap) hsim
  refine ⟨?_, ?_, ?_⟩
  · unfold finalLiquidate
    split
    · rfl
    · rename_i hnp
      rcases hInv.1 with ⟨_, hp0⟩ | ⟨_, hp⟩
      · exact hp0
      · exact absurd hp hnp
  · intro hp
    obtain ⟨lb, hlb⟩ : ∃ lb, marketData.getLast? = some lb := by
      cases hl : marketData.getLast? with
      | none => exact absurd (List.getLast?_eq_none_iff.mp hl) hne
      | some lb => exact ⟨lb, rfl⟩
    refine ⟨lb, hlb, ?_⟩
    unfold finalLiquidate
    rw [if_pos hp, hlb]
    rfl
  · unfold runBacktest
    rw [if_neg (by simpa [List.isEmpty_iff] using hne)]
    dsimp only
    rw [hsim]

/-- Witness for C1 at the concrete one-bar empty-graph run (the dummy
entry buys on the only bar, so the forced liquidation fires). -/
theorem c1_terminal_flatness_witness :
    (finalLiquidate [cexBar] .pClose ⟨0, 10, 10, [⟨"2024-01-02", .buy, 10⟩]⟩).position = 0 ∧
    (0 < (10 : ℚ) →
      ∃ lb, ([cexBar].getLast? = some lb ∧
        (finalLiquidate [cexBar] .pClose ⟨0, 10, 10, [⟨"2024-01-02", .buy, 10⟩]⟩).trades =
          [⟨"2024-01-02", .buy, 10⟩] ++ [⟨lb.date, .sell, lb.field .pClose⟩])) ∧
    runBacktest zeroSqrt 5 [] [] [cexBar] 100 .pClose =
      .ok ⟨(finalLiquidate [cexBar] .pClose ⟨0, 10, 10, [⟨"2024-01-02", .buy, 10⟩]⟩).trades,
        (finalLiquidate [cexBar] .pClose ⟨0, 10, 10, [⟨"2024-01-02", .buy, 10⟩]⟩).capital,
        ((finalLiquidate [cexBar] .pClose ⟨0, 10, 10, [⟨"2024-01-02", .buy, 10⟩]⟩).capital - 100) /
          100 * 100, false⟩ :=
  c1_terminal_flatness zeroSqrt 5 [] [] [cexBar] 100 .pClose (by simp) (by norm_num)
    (by
      intro d hd
      rw [List.mem_singleton] at hd
      rw [hd]
      norm_num [cexBar, MarketData.field])
    ⟨0, 10, 10, [⟨"2024-01-02", .buy, 10⟩]⟩
    (by
      simp [simGo, stepBar, scanCandidates, evalBlock, evalBody, resolveEntryBlocks,
        entryBlocksOf, exitBlocksOf, entryFilter, exitFilter, buildGraph, buildBlocksById,
        graphAdd, mapSetBlock, blocksGet, graphGet, cacheGet, cacheSet, dummyEntryBlock,
        isFalsyStr, jsStrOr, EvalValue.truthy, cexBar, MarketData.field]
      norm_num)

/-- Claim C2: with positive initial capital and positive selected prices,
between any two bar iterations exactly one of `cash > 0` / `unitsHeld > 0`
holds, every prefix of the ledger has Buy-minus-Sell balance 0 or 1, and
each bar appends at most one trade (no same-bar buy-then-sell). -/
theorem c2_single_position (msqrt : ℚ → ℚ) (fuel : Nat) (blocks : List Block)
    (connections : List Connection) (marketData : List MarketData)
    (initialCapital : ℚ) (usePriceType : PriceField)
    (hcap : 0 < initialCapital)
    (hpos : ∀ d ∈ marketData, 0 < d.field usePriceType) :
    (∀ pre post st', marketData = pre ++ post →
      simGo msqrt fuel (buildBlocksById blocks) (buildGraph connections)
        (resolveEntryBlocks blocks (buildGraph connections))
        (exitBlocksOf blocks (buildGraph connections)
          (entryBlocksOf blocks (buildGraph connections)))
        marketData usePriceType 0 pre ⟨initialCapital, 0, 0, []⟩ = some st' →
      ((0 < st'.capital) ↔ ¬ 0 < st'.position) ∧
      (∀ q t, st'.trades = q ++ t → TradesBalance q = 0 ∨ TradesBalance q = 1)) ∧
    (∀ i d st st',
      stepBar msqrt fuel (buildBlocksById blocks) (buildGraph connections)
        (resolveEntryBlocks blocks (buildGraph connections))
        (exitBlocksOf blocks (buildGraph connections)
          (entryBlocksOf blocks (buildGraph connections)))
        marketData usePriceType i d st = some st' →
      st'.trades = st.trades ∨ ∃ tr, st'.trades = st.trades ++ [tr]) := by
  constructor
  · intro pre post st' hsplit hsim
    have hInv := simGo_inv msqrt fuel (buildBlocksById blocks) (buildGraph connections)
      (resolveEntryBlocks blocks (buildGraph connections))
      (exitBlocksOf blocks (buildGraph connections)
        (entryBlocksOf blocks (buildGraph connections)))
      marketData usePriceType pre 0 ⟨initialCapital, 0, 0, []⟩ st'
      (fun d hd => hpos d (hsplit ▸ List.mem_append_left post hd))
      (simInv_start initialCapital hcap) hsim
    refine ⟨?_, hInv.2.1⟩
    rcases hInv.1 with ⟨hc, hp⟩ | ⟨hc, hp⟩
    · rw [hp]
      simp [hc]
    · rw [hc]
      simp [hp]
  · intro i d st st' h
    rcases stepBar_cases msqrt fuel (buildBlocksById blocks) (buildGraph connections)
      (resolveEntryBlocks blocks (buildGraph connections))
      (exitBlocksOf blocks (buildGraph connections)
        (entryBlocksOf blocks (buildGraph connections)))
      marketData usePriceType i d st st' h with rfl | ⟨_, rfl⟩ | ⟨_, rfl⟩
    · exact Or.inl rfl
    · exact Or.inr ⟨_, rfl⟩
    · exact Or.inr ⟨_, rfl⟩

/-- Witness for C2 at the concrete one-bar run: after the only bar the
state is long with zero cash, and the empty ledger prefix balances to 0. -/
theorem c2_single_position_witness :
    (((0 : ℚ) < 0) ↔ ¬ (0 : ℚ) < 10) ∧
      (TradesBalance [] = 0 ∨ TradesBalance [] = 1) := by
  have h := (c2_single_position zeroSqrt 5 [] [] [cexBar] 100 .pClose (by norm_num)
    (by
      intro d hd
      rw [List.mem_singleton] at hd
      rw [hd]
      norm_num [cexBar, MarketData.field])).1
    [cexBar] [] ⟨0, 10, 10, [⟨"2024-01-02", .buy, 10⟩]⟩ (by simp)
    (by
      simp [simGo, stepBar, scanCandidates, evalBlock, evalBody, resolveEntryBlocks,
        entryBlocksOf, exitBlocksOf, entryFilter, exitFilter, buildGraph, buildBlocksById,
        graphAdd, mapSetBlock, blocksGet, graphGet, cacheGet, cacheSet, dummyEntryBlock,
        isFalsyStr, jsStrOr, EvalValue.truthy, cexBar, MarketData.field]
      norm_num)
  exact ⟨h.1, h.2 [] [⟨"2024-01-02", .buy, 10⟩] (by simp)⟩

end TradeBricks
